import Mathlib

/-!
Verification of the job-orchestration core of `main.py` (Mega.nz → Telegram
relay bot).  All definitions below are shallow embeddings of the Python
source: pure helpers become Lean functions, the stateful worker becomes a
function from an explicit environment (download outcome, directory
contents, cancel-flag observations, relay/delete outcomes) to the sequence
of observable actions it performs plus the final on-disk state.  Machine
floats used by the source for times, byte counts and percentages are
modelled as exact rationals; Python strings are modelled as `String` or as
`List Char` where character-level operations (lowercasing, substring
search) matter.
-/

namespace Mega

/-- `TELEGRAM_MAX_BYTES = 2 * 1024 * 1024 * 1024` (main.py line 59). -/
def TELEGRAM_MAX_BYTES : ℕ := 2 * 1024 * 1024 * 1024

/-! ### Progress bar (`make_progress_bar`, main.py lines 92–95) -/

/-- Python `round` rounds half to even; `int(...)` of the already integral
result is exact.  Embedded over `ℚ`. -/
def pyRound (x : ℚ) : ℤ :=
  if Int.fract x < 1/2 then ⌊x⌋
  else if 1/2 < Int.fract x then ⌊x⌋ + 1
  else if ⌊x⌋ % 2 = 0 then ⌊x⌋ else ⌊x⌋ + 1

/-- `pct = max(0.0, min(100.0, pct))` (main.py line 93). -/
def clampPct (pct : ℚ) : ℚ := max 0 (min 100 pct)

/-- `filled = int(round(length * pct / 100.0))` (main.py line 94). -/
def filledCount (length : ℕ) (pct : ℚ) : ℕ :=
  (pyRound ((length : ℚ) * clampPct pct / 100)).toNat

/-- `make_progress_bar` (main.py lines 92–95): `"▓" * filled + "░" * (length - filled)`. -/
def make_progress_bar (pct : ℚ) (length : ℕ) : String :=
  String.mk (List.replicate (filledCount length pct) '▓' ++
             List.replicate (length - filledCount length pct) '░')

/-! ### `safe_edit` (main.py lines 97–103) -/

/-- `startsWith pat l` : does `l` start with `pat`?  (`str.startswith`-style
helper used to express Python substring containment `pat in s`). -/
def startsWith : List Char → List Char → Bool
  | [], _ => true
  | _ :: _, [] => false
  | c :: cs, d :: ds => c = d && startsWith cs ds

/-- `containsSub pat l` : does `pat` occur contiguously inside `l`?
Models Python's `pat in s` for strings. -/
def containsSub (pat : List Char) : List Char → Bool
  | [] => startsWith pat []
  | c :: rest => startsWith pat (c :: rest) || containsSub pat rest

/-- Outcome reported by the transport's `edit_message_text` call: success, or
an exception carrying a message (modelled as its character list). -/
inductive EditResult where
  | ok
  | err (msg : List Char)
  deriving DecidableEq

/-- What `safe_edit` did: whether it let an exception escape, and whether it
logged/surfaced the error (`logger.debug`). -/
structure SafeEditOutcome where
  raised : Bool
  loggedDebug : Bool
  deriving DecidableEq

/-- The lowered pattern tested at main.py line 102. -/
def notModifiedPattern : List Char := "message not modified".toList

/-- `safe_edit` (main.py lines 97–103): catch every exception; if
`"message not modified" not in str(e).lower()` log at debug level,
otherwise do nothing.  Never re-raises. -/
def safe_edit (r : EditResult) : SafeEditOutcome :=
  match r with
  | .ok => ⟨false, false⟩
  | .err m =>
    if containsSub notModifiedPattern (m.map Char.toLower) then ⟨false, false⟩
    else ⟨false, true⟩

/-! ### Download monitor rate computation (`monitor_download`, main.py lines 163–207)

The monitor keeps `samples : List (time × bytes)`; each loop iteration
appends `(now, bytes)`, pops stale samples from the front while
`now - samples[0][0] > window` (window = 6.0), and computes
`speed = (b1 - b0) / max(0.0001, t1 - t0)` from the oldest and newest
retained samples when at least two are retained, else `0.0`. -/

/-- The `while samples and (now - samples[0][0]) > window: samples.pop(0)`
loop (main.py lines 188–189). -/
def purgeOld (window now : ℚ) : List (ℚ × ℚ) → List (ℚ × ℚ)
  | [] => []
  | s :: rest => if window < now - s.1 then purgeOld window now rest else s :: rest

/-- Speed computation (main.py lines 191–196). -/
def computeSpeed : List (ℚ × ℚ) → ℚ
  | [] => 0
  | [_] => 0
  | s0 :: s1 :: rest =>
    let sl := (s1 :: rest).getLastD s1
    (sl.2 - s0.2) / max (1/10000) (sl.1 - s0.1)

/-- One monitor iteration's effect on the sample window: append the fresh
sample, then purge stale ones (main.py lines 186–189). -/
def observe (now b : ℚ) (samples : List (ℚ × ℚ)) : List (ℚ × ℚ) :=
  purgeOld 6 now (samples ++ [(now, b)])

/-- The sample window after feeding a whole observation sequence, starting
from the empty list (main.py line 172). -/
def runMonitor (obs : List (ℚ × ℚ)) : List (ℚ × ℚ) :=
  obs.foldl (fun s tb => observe tb.1 tb.2 s) []

/-- Timestamp of the newest observation (0 for an empty sequence). -/
def lastTime (obs : List (ℚ × ℚ)) : ℚ := (obs.getLastD (0, 0)).1

/-- Observations arrive in chronological order: timestamps non-decreasing. -/
def timesSorted (l : List (ℚ × ℚ)) : Prop :=
  l.Pairwise (fun a b => a.1 ≤ b.1)

/-! ### Division-safety model for the progress computations (C10)

The same arithmetic as the source, but every division goes through
`checkedDiv`, which refuses a zero denominator; proving the computations
always return `some` shows no division by zero is reachable. -/

/-- Division that fails on a zero denominator. -/
def checkedDiv (a b : ℚ) : Option ℚ :=
  if b = 0 then none else some (a / b)

/-- The `_monitor` upload callback body (main.py lines 256–273):
`pct = (uploaded / filesize) * 100 if filesize > 0 else 0.0`;
`elapsed = max(0.0001, now - start)`; `speed = uploaded / elapsed`;
`rem = max(0, filesize - uploaded)`; `eta = rem / speed if speed > 0 else 0`. -/
def uploadTick (filesize uploaded now start : ℚ) : Option (ℚ × ℚ × ℚ) :=
  match (if 0 < filesize then (checkedDiv uploaded filesize).map (· * 100) else some 0) with
  | none => none
  | some pct =>
    match checkedDiv uploaded (max (1/10000) (now - start)) with
    | none => none
    | some speed =>
      match (if 0 < speed then checkedDiv (max 0 (filesize - uploaded)) speed else some 0) with
      | none => none
      | some eta => some (pct, speed, eta)

/-- `avg_speed = filesize / max(1e-6, elapsed)` (main.py line 288). -/
def avgSpeedChecked (filesize elapsed : ℚ) : Option ℚ :=
  checkedDiv filesize (max (1/1000000) elapsed)

/-- The download monitor's speed computation with checked division
(main.py lines 191–196). -/
def downloadSpeedChecked : List (ℚ × ℚ) → Option ℚ
  | [] => some 0
  | [_] => some 0
  | s0 :: s1 :: rest =>
    let sl := (s1 :: rest).getLastD s1
    checkedDiv (sl.2 - s0.2) (max (1/10000) (sl.1 - s0.1))

/-! ### Job registry and `/cancel` (main.py lines 72–74, 463–495)

Per-job mutable state relevant to cancellation/termination; `jobs` is a
dict `job_id → record` and `cmd_cancel` sets `cancel_requested := True`
on the found entry, touching nothing else. -/

/-- The `cancel_requested` / `done` fields of a job record
(main.py lines 528–538). -/
structure JobRec where
  cancel_requested : Bool
  done : Bool
  deriving DecidableEq

/-- The status label `/status` renders for one job (main.py line 474):
`done if j["done"] else (cancelled if j["cancel_requested"] else running)`. -/
inductive JobStatusLabel where
  | doneLabel
  | cancelledLabel
  | runningLabel
  deriving DecidableEq

/-- `cmd_status`'s per-job label (main.py line 474). -/
def statusLabel (j : JobRec) : JobStatusLabel :=
  if j.done then .doneLabel else if j.cancel_requested then .cancelledLabel else .runningLabel

/-- The mutation `/cancel` performs on the found job record
(main.py line 494): set `cancel_requested := True`, nothing else. -/
def requestCancel (j : JobRec) : JobRec := { j with cancel_requested := true }

/-- `cmd_cancel` (main.py lines 479–495) acting on the registry: the entry
whose id matches gets `cancel_requested := True`; other entries are
untouched (a missing id leaves the registry unchanged). -/
def cmd_cancel (reg : List (String × JobRec)) (jid : String) : List (String × JobRec) :=
  reg.map (fun e => if e.1 = jid then (e.1, requestCancel e.2) else e)

/-! ### The worker (`worker_job`, main.py lines 352–456)

`worker_job` is embedded as a function from an environment — the outcome
of each (hypothetical) retrieval attempt, the directory contents after the
retrieval, per-file sizes, the relay/delete outcomes, and the value of the
shared `cancel_requested` flag at each of the points where the worker
reads it — to the list of observable actions it performs, the files left
on disk, and the final flags.  Checkpoint `0` is the read at line 391
(right after the download returns); checkpoint `i ≥ 1` is the read at the
top of the upload loop before the `i`-th file (line 426). -/

/-- Outcome of one `mega.download` call: success, a `MegaError` whose
message identifies a conflicting existing path, any other `MegaError`, or
a non-Mega exception. -/
inductive DLAttempt where
  | ok
  | conflictErr
  | otherMegaErr
  | otherErr
  deriving DecidableEq

/-- Observable actions of `worker_job`, in program order.
`stabilityChecked` is the action the spec's StabilityDetector would
perform before routing a file ("size unchanged for `stabilityWindow`");
it is part of the vocabulary so the spec's claim C1 can be stated against
the trace — `worker_job` itself never performs it. -/
inductive Ev where
  | prepareDir
  | editDownloadStarting
  | downloadCall
  | downloadReturned
  | stabilityChecked (p : String)
  | editCancelledDuringDownload
  | editNoFiles
  | editHeader
  | editTotalExceeds
  | editUploading (p : String)
  | relayAttempt (p : String) (ok : Bool)
  | editUploadFailed (p : String)
  | deleteAttempt (p : String)
  | editAllDone
  | editCancelledInLoop
  | editMegaError
  | editUnexpectedError
  | removeDir
  deriving DecidableEq

/-- Environment a single `worker_job` run interacts with. -/
structure Env where
  /-- Files found by the `os.walk` at lines 382–385 after the download
  call returns (in walk order). -/
  files : List String
  /-- `os.path.getsize` per file (line 405). -/
  size : String → ℕ
  /-- Outcome the `k`-th retrieval attempt would have; the code performs
  exactly one call, `attempts 0` (line 379). -/
  attempts : ℕ → DLAttempt
  /-- Whether the relay of a file reports success (lines 279–301, 306–331;
  failures are caught and surfaced inside the send helpers). -/
  relayOk : String → Bool
  /-- Whether the `os.remove(p)` at line 436 succeeds (exceptions pass). -/
  deleteOk : String → Bool
  /-- Value of the shared `cancel_requested` flag at observation point `k`. -/
  cancelAt : ℕ → Bool

/-- Result of a `worker_job` run: its action trace, the files still on
disk at the end, whether the working directory was removed, and the final
`done` flag (set in the `finally` block, lines 447–450). -/
structure RunOut where
  trace : List Ev
  remaining : List String
  dirRemoved : Bool
  done : Bool
  deriving DecidableEq

/-- Actions of one iteration of the upload loop body for file `p`
(lines 430–438): announce, relay (surfacing a reported failure), then
attempt deletion regardless of the relay outcome. -/
def relayBlock (env : Env) (p : String) : List Ev :=
  [Ev.editUploading p, Ev.relayAttempt p (env.relayOk p)] ++
  (if env.relayOk p then [] else [Ev.editUploadFailed p]) ++
  [Ev.deleteAttempt p]

/-- The upload loop (lines 425–438) starting at checkpoint `i` on the
files not yet handled: the cancel flag is read at the top of each
iteration; on cancel the whole download directory — including any file
whose earlier `os.remove` failed — is removed
(`safe_remove(download_dir)`, line 428) and the loop returns.  Returns
the actions performed, the files left on disk, and whether the loop ended
by cancellation. -/
def uploadLoop (env : Env) : ℕ → List String → List Ev × List String × Bool
  | _, [] => ([Ev.editAllDone], [], false)
  | i, p :: rest =>
    if env.cancelAt i then ([Ev.editCancelledInLoop, Ev.removeDir], [], true)
    else
      let r := uploadLoop env (i + 1) rest
      (relayBlock env p ++ r.1,
       if r.2.2 then [] else (if env.deleteOk p then [] else [p]) ++ r.2.1,
       r.2.2)

/-- Actions up to and including the single `mega.download` call
(lines 362–379). -/
def startActs : List Ev := [Ev.prepareDir, Ev.editDownloadStarting, Ev.downloadCall]

/-- `worker_job` (main.py lines 352–456).  One retrieval attempt; on any
retrieval error the job is terminal with an error message.  On success:
cancel check (line 391, directory removed on cancel), empty check
(line 396), header (line 417), the *total*-size ceiling check
(lines 420–422, everything left on disk when exceeded), then the upload
loop.  The `finally` block always sets `done` and removes the directory
only when it is empty. -/
def worker_job (env : Env) : RunOut :=
  match env.attempts 0 with
  | .conflictErr =>
    ⟨startActs ++ [Ev.editMegaError], env.files, env.files.isEmpty, true⟩
  | .otherMegaErr =>
    ⟨startActs ++ [Ev.editMegaError], env.files, env.files.isEmpty, true⟩
  | .otherErr =>
    ⟨startActs ++ [Ev.editUnexpectedError], env.files, env.files.isEmpty, true⟩
  | .ok =>
    let base := startActs ++ [Ev.downloadReturned]
    if env.cancelAt 0 then
      ⟨base ++ [Ev.editCancelledDuringDownload, Ev.removeDir], [], true, true⟩
    else if env.files = [] then
      ⟨base ++ [Ev.editNoFiles, Ev.removeDir], [], true, true⟩
    else if TELEGRAM_MAX_BYTES < (env.files.map env.size).sum then
      ⟨base ++ [Ev.editHeader, Ev.editTotalExceeds], env.files, false, true⟩
    else
      let r := uploadLoop env 1 env.files
      ⟨base ++ Ev.editHeader :: r.1, r.2.1, r.2.1.isEmpty, true⟩

/-! ## Theorems -/

/-- C7: a status edit whose rendered text the transport rejects as
"content unchanged" ("message not modified") is treated by `safe_edit` as
a no-op success: nothing is raised (for any outcome whatsoever, so the
pipeline can never fail through `safe_edit`), and for the
"message not modified" rejection specifically no error is even logged. -/
theorem C7_unmodified_edit_is_noop :
    (∀ r : EditResult, (safe_edit r).raised = false) ∧
    (∀ m : List Char, containsSub notModifiedPattern (m.map Char.toLower) = true →
      safe_edit (EditResult.err m) = ⟨false, false⟩) := by
  constructor
  · intro r
    cases r with
    | ok => rfl
    | err m =>
      simp only [safe_edit]
      split <;> rfl
  · intro m h
    simp [safe_edit, h]

/-- Witness for C7 at a concrete transport rejection message. -/
theorem C7_witness :
    containsSub notModifiedPattern
      (("Bad Request: message not modified".toList).map Char.toLower) = true ∧
    safe_edit (EditResult.err "Bad Request: message not modified".toList) = ⟨false, false⟩ :=
  ⟨by decide, C7_unmodified_edit_is_noop.2 _ (by decide)⟩

/-- `/cancel` updates the registry entry pointwise: looking up the
cancelled id yields the old record with only `cancel_requested` set. -/
theorem lookup_cmd_cancel (reg : List (String × JobRec)) (jid : String) :
    (cmd_cancel reg jid).lookup jid = (reg.lookup jid).map requestCancel := by
  induction reg with
  | nil => rfl
  | cons e rest ih =>
    obtain ⟨k, v⟩ := e
    have hstep : cmd_cancel ((k, v) :: rest) jid =
        (if k = jid then (k, requestCancel v) else (k, v)) :: cmd_cancel rest jid := rfl
    rw [hstep]
    by_cases hk : k = jid
    · subst hk
      rw [if_pos rfl]
      simp [List.lookup_cons, ih]
    · rw [if_neg hk]
      have hbeq : (jid == k) = false := beq_false_of_ne fun h => hk h.symm
      simp [List.lookup_cons, hbeq, ih]

/-- C8: requesting cancellation never touches the `done` flag, and on a
job already done the registry entry after `/cancel` is still done and
`/status` still labels it done — there is no transition out of the
terminal state. -/
theorem C8_cancel_noop_on_done :
    (∀ j : JobRec, (requestCancel j).done = j.done) ∧
    (∀ (reg : List (String × JobRec)) (jid : String) (j : JobRec),
      reg.lookup jid = some j → j.done = true →
      ∃ j2, (cmd_cancel reg jid).lookup jid = some j2 ∧ j2.done = true ∧
        statusLabel j2 = JobStatusLabel.doneLabel) := by
  constructor
  · intro j; rfl
  · intro reg jid j h hd
    refine ⟨requestCancel j, ?_, hd, ?_⟩
    · rw [lookup_cmd_cancel, h]; rfl
    · simp [statusLabel, requestCancel, hd]

/-- Witness for C8 on a concrete one-job registry whose job is done. -/
theorem C8_witness :
    (List.lookup "ab" [("ab", (⟨false, true⟩ : JobRec))] = some (⟨false, true⟩ : JobRec) ∧
      (⟨false, true⟩ : JobRec).done = true) ∧
    ∃ j2, (cmd_cancel [("ab", (⟨false, true⟩ : JobRec))] "ab").lookup "ab" = some j2 ∧
      j2.done = true ∧ statusLabel j2 = JobStatusLabel.doneLabel :=
  ⟨⟨by decide, rfl⟩,
    C8_cancel_noop_on_done.2 [("ab", (⟨false, true⟩ : JobRec))] "ab" ⟨false, true⟩
      (by decide) rfl⟩

/-- The clamped elapsed-time denominators are positive. -/
theorem max_clamp_pos {c x : ℚ} (hc : 0 < c) : 0 < max c x :=
  lt_of_lt_of_le hc (le_max_left _ _)

/-- C10: none of the progress computations can divide by zero.  Each
division of the upload callback, the final average-speed report and the
download monitor's speed computation succeeds under checked division for
every input; moreover the checked download speed agrees with the actual
one, a zero file size short-circuits the percentage to 0, and zero
uploaded bytes give speed 0 and (guarded) ETA 0. -/
theorem C10_no_division_by_zero :
    (∀ fsz up now st : ℚ, (uploadTick fsz up now st).isSome = true) ∧
    (∀ fsz el : ℚ, (avgSpeedChecked fsz el).isSome = true) ∧
    (∀ l : List (ℚ × ℚ), (downloadSpeedChecked l).isSome = true) ∧
    (∀ l : List (ℚ × ℚ), downloadSpeedChecked l = some (computeSpeed l)) ∧
    (∀ up now st : ℚ, ∃ spd eta, uploadTick 0 up now st = some (0, spd, eta)) ∧
    (∀ now st : ℚ, uploadTick 1 0 now st = some (0, 0, 0)) := by
  have hel : ∀ up now st : ℚ,
      checkedDiv up (max (1/10000) (now - st)) = some (up / max (1/10000) (now - st)) :=
    fun up now st => by
      rw [checkedDiv, if_neg (ne_of_gt (max_clamp_pos (by norm_num)))]
  refine ⟨?_, ?_, ?_, ?_, ?_, ?_⟩
  · intro fsz up now st
    by_cases hf : 0 < fsz
    · have h1 : (if 0 < fsz then (checkedDiv up fsz).map (· * 100) else some 0) =
          some (up / fsz * 100) := by
        rw [if_pos hf, checkedDiv, if_neg (ne_of_gt hf)]
        rfl
      by_cases hs : 0 < up / max (1/10000) (now - st)
      · have h3 : checkedDiv (max 0 (fsz - up)) (up / max (1/10000) (now - st)) =
            some (max 0 (fsz - up) / (up / max (1/10000) (now - st))) := by
          rw [checkedDiv, if_neg (ne_of_gt hs)]
        simp only [uploadTick, h1, hel, if_pos hs, h3]
        rfl
      · simp only [uploadTick, h1, hel, if_neg hs]
        rfl
    · by_cases hs : 0 < up / max (1/10000) (now - st)
      · have h3 : checkedDiv (max 0 (fsz - up)) (up / max (1/10000) (now - st)) =
            some (max 0 (fsz - up) / (up / max (1/10000) (now - st))) := by
          rw [checkedDiv, if_neg (ne_of_gt hs)]
        simp only [uploadTick, if_neg hf, hel, if_pos hs, h3]
        rfl
      · simp only [uploadTick, if_neg hf, hel, if_neg hs]
        rfl
  · intro fsz el
    rw [avgSpeedChecked, checkedDiv, if_neg (ne_of_gt (max_clamp_pos (by norm_num)))]
    rfl
  · intro l
    match l with
    | [] => rfl
    | [_] => rfl
    | s0 :: s1 :: rest =>
      rw [downloadSpeedChecked, checkedDiv, if_neg (ne_of_gt (max_clamp_pos (by norm_num)))]
      rfl
  · intro l
    match l with
    | [] => rfl
    | [_] => rfl
    | s0 :: s1 :: rest =>
      rw [downloadSpeedChecked, computeSpeed, checkedDiv,
        if_neg (ne_of_gt (max_clamp_pos (by norm_num)))]
  · intro up now st
    by_cases hs : 0 < up / max (1/10000) (now - st)
    · refine ⟨up / max (1/10000) (now - st),
        max 0 (0 - up) / (up / max (1/10000) (now - st)), ?_⟩
      have h3 : checkedDiv (max 0 ((0:ℚ) - up)) (up / max (1/10000) (now - st)) =
          some (max 0 (0 - up) / (up / max (1/10000) (now - st))) := by
        rw [checkedDiv, if_neg (ne_of_gt hs)]
      simp only [uploadTick, if_neg (lt_irrefl (0:ℚ)), hel, if_pos hs, h3]
    · refine ⟨up / max (1/10000) (now - st), 0, ?_⟩
      simp only [uploadTick, if_neg (lt_irrefl (0:ℚ)), hel, if_neg hs]
  · intro now st
    have h1 : (if 0 < (1:ℚ) then (checkedDiv 0 1).map (· * 100) else some 0) =
        some 0 := by
      rw [if_pos one_pos, checkedDiv, if_neg one_ne_zero]
      norm_num
    have h2 : checkedDiv 0 (max (1/10000) (now - st)) = some 0 := by
      rw [checkedDiv, if_neg (ne_of_gt (max_clamp_pos (by norm_num))), zero_div]
    simp only [uploadTick, h1, h2, lt_irrefl, if_false]

/-! ### Progress-bar lemmas (C9) -/

/-- `pyRound` never rounds below the floor. -/
theorem le_pyRound (x : ℚ) : ⌊x⌋ ≤ pyRound x := by
  unfold pyRound
  split_ifs <;> omega

/-- `pyRound` never rounds above the floor plus one. -/
theorem pyRound_le (x : ℚ) : pyRound x ≤ ⌊x⌋ + 1 := by
  unfold pyRound
  split_ifs <;> omega

/-- `pyRound` of an integer is that integer. -/
theorem pyRound_intCast (n : ℤ) : pyRound (n : ℚ) = n := by
  unfold pyRound
  rw [Int.fract_intCast, Int.floor_intCast]
  norm_num

/-- Round-half-to-even is monotone. -/
theorem pyRound_mono {x y : ℚ} (h : x ≤ y) : pyRound x ≤ pyRound y := by
  rcases lt_or_ge ⌊x⌋ ⌊y⌋ with hf | hf
  · calc pyRound x ≤ ⌊x⌋ + 1 := pyRound_le x
      _ ≤ ⌊y⌋ := by omega
      _ ≤ pyRound y := le_pyRound y
  · have hfe : ⌊x⌋ = ⌊y⌋ := le_antisymm (Int.floor_le_floor h) hf
    have hfr : Int.fract x ≤ Int.fract y := by
      unfold Int.fract
      rw [hfe]
      linarith
    unfold pyRound
    split_ifs <;> first | omega | linarith

/-- The clamped percentage stays within `[0, 100]`. -/
theorem clampPct_mem (pct : ℚ) : 0 ≤ clampPct pct ∧ clampPct pct ≤ 100 :=
  ⟨le_max_left _ _, max_le (by norm_num) (min_le_left _ _)⟩

/-- The filled-cell count never exceeds the bar length. -/
theorem filledCount_le (L : ℕ) (pct : ℚ) : filledCount L pct ≤ L := by
  obtain ⟨h0, h100⟩ := clampPct_mem pct
  set x : ℚ := (L : ℚ) * clampPct pct / 100 with hx
  have hxL : x ≤ (L : ℚ) := by
    rw [hx, div_le_iff₀ (by norm_num : (0:ℚ) < 100)]
    have := mul_le_mul_of_nonneg_left h100 (by positivity : (0:ℚ) ≤ (L : ℚ))
    linarith
  have hfl : ⌊x⌋ ≤ (L : ℤ) := by
    have := Int.floor_le_floor hxL
    rwa [Int.floor_natCast] at this
  have hpr : pyRound x ≤ (L : ℤ) := by
    unfold pyRound
    split_ifs with h1 h2 h3
    · exact hfl
    · by_contra hc
      have hxfl : ⌊x⌋ = (L : ℤ) := by omega
      have : Int.fract x ≤ 0 := by
        have hfloorx : ((L : ℤ) : ℚ) ≤ x := by
          rw [← hxfl]; exact Int.floor_le x
        unfold Int.fract
        rw [hxfl]
        push_cast at hfloorx ⊢
        linarith
      linarith
    · exact hfl
    · by_contra hc
      have hxfl : ⌊x⌋ = (L : ℤ) := by omega
      have : Int.fract x ≤ 0 := by
        have hfloorx : ((L : ℤ) : ℚ) ≤ x := by
          rw [← hxfl]; exact Int.floor_le x
        unfold Int.fract
        rw [hxfl]
        push_cast at hfloorx ⊢
        linarith
      linarith
  exact Int.toNat_le.mpr hpr

/-- C9: for every percentage and positive bar length the rendered bar has
exactly `L` characters; the filled-cell count is monotone in the
percentage, `0` for any percentage `≤ 0` and `L` for any percentage
`≥ 100` (out-of-range input is clamped). -/
theorem C9_progress_bar (L : ℕ) (hL : 0 < L) :
    (∀ pct : ℚ, (make_progress_bar pct L).length = L) ∧
    (∀ p1 p2 : ℚ, p1 ≤ p2 → filledCount L p1 ≤ filledCount L p2) ∧
    (∀ pct : ℚ, pct ≤ 0 → filledCount L pct = 0) ∧
    (∀ pct : ℚ, 100 ≤ pct → filledCount L pct = L) := by
  refine ⟨?_, ?_, ?_, ?_⟩
  · intro pct
    show (List.replicate (filledCount L pct) '▓' ++
      List.replicate (L - filledCount L pct) '░').length = L
    rw [List.length_append, List.length_replicate, List.length_replicate]
    have := filledCount_le L pct
    omega
  · intro p1 p2 hp
    apply Int.toNat_le_toNat
    apply pyRound_mono
    have hclamp : clampPct p1 ≤ clampPct p2 :=
      max_le_max le_rfl (min_le_min le_rfl hp)
    have hmul : (L : ℚ) * clampPct p1 ≤ (L : ℚ) * clampPct p2 :=
      mul_le_mul_of_nonneg_left hclamp (by positivity)
    exact (div_le_div_iff_of_pos_right (by norm_num : (0:ℚ) < 100)).mpr hmul
  · intro pct hp
    have hc : clampPct pct = 0 := by
      unfold clampPct
      rw [min_eq_right (le_trans hp (by norm_num))]
      exact max_eq_left hp
    unfold filledCount
    rw [hc, mul_zero, zero_div]
    have : pyRound ((0 : ℤ) : ℚ) = 0 := pyRound_intCast 0
    rw [Int.cast_zero] at this
    rw [this]
    rfl
  · intro pct hp
    have hc : clampPct pct = 100 := by
      unfold clampPct
      rw [min_eq_left hp]
      exact max_eq_right (by norm_num)
    unfold filledCount
    rw [hc]
    have hxL : (L : ℚ) * 100 / 100 = ((L : ℤ) : ℚ) := by
      push_cast
      ring
    rw [hxL, pyRound_intCast]
    exact Int.toNat_natCast L

/-! ### Download monitor lemmas (C6) -/

/-- With chronologically ordered samples, the front-purge loop retains
exactly the samples whose age from `now` is at most the window. -/
theorem purgeOld_eq_filter (w now : ℚ) :
    ∀ l : List (ℚ × ℚ), timesSorted l →
      purgeOld w now l = l.filter (fun s => decide (now - s.1 ≤ w)) := by
  intro l hl
  induction l with
  | nil => rfl
  | cons s rest ih =>
    rw [timesSorted, List.pairwise_cons] at hl
    obtain ⟨hhead, hrest⟩ := hl
    by_cases h : w < now - s.1
    · have hdrop : (decide (now - s.1 ≤ w)) = false := by
        simp [not_le.mpr h]
      simp only [purgeOld, if_pos h, List.filter_cons, hdrop, Bool.false_eq_true, if_false]
      exact ih hrest
    · have hkeep : (decide (now - s.1 ≤ w)) = true := by
        simp [not_lt.mp h]
      have hall : ∀ a ∈ rest, (decide (now - a.1 ≤ w)) = true := by
        intro a ha
        have h1 := hhead a ha
        have h2 : now - s.1 ≤ w := not_lt.mp h
        simp only [decide_eq_true_eq]
        linarith
      simp only [purgeOld, if_neg h, List.filter_cons, hkeep, if_true]
      rw [List.filter_eq_self.mpr hall]

/-- The last element of a snoc list, ignoring the default. -/
theorem getLastD_append_single (l : List (ℚ × ℚ)) (x d : ℚ × ℚ) :
    (l ++ [x]).getLastD d = x := by
  induction l generalizing d with
  | nil => rfl
  | cons a t ih =>
    rw [List.cons_append, List.getLastD_cons]
    exact ih a

/-- A nonempty list contains its `getLastD`. -/
theorem getLastD_mem (l : List (ℚ × ℚ)) (d : ℚ × ℚ) (h : l ≠ []) : l.getLastD d ∈ l := by
  induction l generalizing d with
  | nil => exact absurd rfl h
  | cons a t ih =>
    rw [List.getLastD_cons]
    match t with
    | [] => exact List.mem_singleton_self a
    | b :: t2 => exact List.mem_cons_of_mem a (ih a (by simp))

/-- Feeding one more observation is one `observe` step. -/
theorem runMonitor_append_single (obs : List (ℚ × ℚ)) (x : ℚ × ℚ) :
    runMonitor (obs ++ [x]) = observe x.1 x.2 (runMonitor obs) := by
  simp [runMonitor, List.foldl_append]

/-- For a chronologically ordered observation sequence, the monitor's
retained window is exactly the observations whose age from the newest
timestamp is at most 6 seconds. -/
theorem runMonitor_eq_filter :
    ∀ obs : List (ℚ × ℚ), timesSorted obs →
      runMonitor obs = obs.filter (fun s => decide (lastTime obs - s.1 ≤ 6)) := by
  intro obs
  induction obs using List.reverseRecOn with
  | nil => intro _; rfl
  | append_singleton obs x ih =>
    intro hs
    rw [timesSorted, List.pairwise_append] at hs
    obtain ⟨hs1, _, hcross⟩ := hs
    have hle : ∀ s ∈ obs, s.1 ≤ x.1 :=
      fun s hsm => hcross s hsm x (List.mem_singleton_self x)
    have hlast : lastTime (obs ++ [x]) = x.1 := by
      rw [lastTime, getLastD_append_single]
    rw [runMonitor_append_single, ih hs1, observe, hlast]
    have hsorted2 : timesSorted
        (obs.filter (fun s => decide (lastTime obs - s.1 ≤ 6)) ++ [x]) := by
      rw [timesSorted, List.pairwise_append]
      refine ⟨hs1.filter _, List.pairwise_singleton _ _, ?_⟩
      intro a ha b hb
      rw [List.mem_singleton] at hb
      subst hb
      exact hle a (List.mem_of_mem_filter ha)
    rw [show ((x.1, x.2) : ℚ × ℚ) = x from rfl]
    rw [purgeOld_eq_filter _ _ _ hsorted2, List.filter_append, List.filter_filter]
    have hsingle : ([x].filter (fun s => decide (x.1 - s.1 ≤ 6))) = [x] := by
      simp only [List.filter_cons, List.filter_nil, decide_eq_true_eq]
      norm_num
    conv_rhs => rw [List.filter_append]
    rw [hsingle]
    congr 1
    apply List.filter_congr
    intro a ha
    by_cases hn : x.1 - a.1 ≤ 6
    · have hmemlast : lastTime obs ≤ x.1 := by
        have hne : obs ≠ [] := by
          intro hcon
          rw [hcon] at ha
          exact absurd ha (List.not_mem_nil a)
        exact hle _ (getLastD_mem obs (0, 0) hne)
      have hold : lastTime obs - a.1 ≤ 6 := by linarith
      simp [hn, hold]
    · simp [hn]

/-- The default value of `getLastD` on a nonempty list is irrelevant. -/
theorem getLastD_irrel (a : ℚ × ℚ) (l : List (ℚ × ℚ)) (d1 d2 : ℚ × ℚ) :
    (a :: l).getLastD d1 = (a :: l).getLastD d2 := by
  match l with
  | [] => rfl
  | b :: t =>
    conv_lhs => rw [List.getLastD_cons]
    conv_rhs => rw [List.getLastD_cons]

/-- The monitor's speed is 0 below two samples, and otherwise the byte
delta between newest and oldest retained samples over the clamped time
delta. -/
theorem computeSpeed_eq (l : List (ℚ × ℚ)) :
    (l.length ≤ 1 → computeSpeed l = 0) ∧
    (2 ≤ l.length → computeSpeed l =
      ((l.getLastD (0, 0)).2 - (l.headD (0, 0)).2) /
        max (1/10000) ((l.getLastD (0, 0)).1 - (l.headD (0, 0)).1)) := by
  match l with
  | [] => exact ⟨fun _ => rfl, fun h => absurd h (by norm_num)⟩
  | [s] => exact ⟨fun _ => rfl, fun h => absurd h (by simp)⟩
  | s0 :: s1 :: rest =>
    refine ⟨fun h => by simp at h, fun _ => ?_⟩
    rw [show (s0 :: s1 :: rest).getLastD (0, 0) = (s1 :: rest).getLastD s0 from
      List.getLastD_cons _ _ _]
    rw [getLastD_irrel s1 rest s0 s1]
    simp [computeSpeed, List.headD]

/-- C6, as the spec states it: every retained sample is at most 6 seconds
old, fewer than two samples give rate 0, and with at least two samples the
rate is the byte delta over the *unclamped* time delta between the newest
and oldest retained samples. -/
def claimC6 (obs : List (ℚ × ℚ)) : Prop :=
  (∀ s ∈ runMonitor obs, lastTime obs - s.1 ≤ 6) ∧
  ((runMonitor obs).length ≤ 1 → computeSpeed (runMonitor obs) = 0) ∧
  (2 ≤ (runMonitor obs).length →
    computeSpeed (runMonitor obs) =
      (((runMonitor obs).getLastD (0, 0)).2 - ((runMonitor obs).headD (0, 0)).2) /
        (((runMonitor obs).getLastD (0, 0)).1 - ((runMonitor obs).headD (0, 0)).1))

/-- C6 counterexample: two observations 1/20000 s apart.  The code divides
by the clamped denominator `max(0.0001, Δt) = 0.0001`, reporting 10000
bytes/s, while the claim's formula `Δbytes / Δt` would give 20000. -/
theorem C6_counterexample : ¬ claimC6 [((0:ℚ), (0:ℚ)), (1/20000, 1)] := by
  intro h
  have hrm : runMonitor [((0:ℚ), (0:ℚ)), (1/20000, 1)] = [((0:ℚ), (0:ℚ)), (1/20000, 1)] := by
    norm_num [runMonitor, observe, purgeOld]
  have h3 := h.2.2
  rw [hrm] at h3
  have hres := h3 (by norm_num)
  norm_num [computeSpeed, List.getLastD_cons, List.getLastD_nil, List.headD,
    max_def] at hres

/-- C6 (amended): for chronologically ordered observations the retained
window is exactly the age-≤-6s observations; the rate is 0 below two
retained samples and otherwise equals the byte delta between newest and
oldest retained samples divided by `max(0.0001, Δt)` — the elapsed-time
denominator is clamped below at 0.0001. -/
theorem C6_amended_windowed_rate (obs : List (ℚ × ℚ)) (hs : timesSorted obs) :
    runMonitor obs = obs.filter (fun s => decide (lastTime obs - s.1 ≤ 6)) ∧
    ((runMonitor obs).length ≤ 1 → computeSpeed (runMonitor obs) = 0) ∧
    (2 ≤ (runMonitor obs).length →
      computeSpeed (runMonitor obs) =
        (((runMonitor obs).getLastD (0, 0)).2 - ((runMonitor obs).headD (0, 0)).2) /
          max (1/10000)
            (((runMonitor obs).getLastD (0, 0)).1 - ((runMonitor obs).headD (0, 0)).1)) :=
  ⟨runMonitor_eq_filter obs hs, (computeSpeed_eq _).1, (computeSpeed_eq _).2⟩

/-- Witness for C6 (amended) on a concrete ordered observation sequence. -/
theorem C6_witness :
    timesSorted [((0:ℚ), (0:ℚ)), (2, 100), (5, 300)] ∧
    (runMonitor [((0:ℚ), (0:ℚ)), (2, 100), (5, 300)] =
       [((0:ℚ), (0:ℚ)), (2, 100), (5, 300)].filter
         (fun s => decide (lastTime [((0:ℚ), (0:ℚ)), (2, 100), (5, 300)] - s.1 ≤ 6)) ∧
     ((runMonitor [((0:ℚ), (0:ℚ)), (2, 100), (5, 300)]).length ≤ 1 →
        computeSpeed (runMonitor [((0:ℚ), (0:ℚ)), (2, 100), (5, 300)]) = 0) ∧
     (2 ≤ (runMonitor [((0:ℚ), (0:ℚ)), (2, 100), (5, 300)]).length →
        computeSpeed (runMonitor [((0:ℚ), (0:ℚ)), (2, 100), (5, 300)]) =
          (((runMonitor [((0:ℚ), (0:ℚ)), (2, 100), (5, 300)]).getLastD (0, 0)).2 -
              ((runMonitor [((0:ℚ), (0:ℚ)), (2, 100), (5, 300)]).headD (0, 0)).2) /
            max (1/10000)
              (((runMonitor [((0:ℚ), (0:ℚ)), (2, 100), (5, 300)]).getLastD (0, 0)).1 -
                ((runMonitor [((0:ℚ), (0:ℚ)), (2, 100), (5, 300)]).headD (0, 0)).1))) := by
  have hp : timesSorted [((0:ℚ), (0:ℚ)), (2, 100), (5, 300)] := by
    norm_num [timesSorted, List.pairwise_cons]
  exact ⟨hp, C6_amended_windowed_rate _ hp⟩

/-- Witness for C9 at bar length 24. -/
theorem C9_witness :
    0 < 24 ∧
    ((∀ pct : ℚ, (make_progress_bar pct 24).length = 24) ∧
     (∀ p1 p2 : ℚ, p1 ≤ p2 → filledCount 24 p1 ≤ filledCount 24 p2) ∧
     (∀ pct : ℚ, pct ≤ 0 → filledCount 24 pct = 0) ∧
     (∀ pct : ℚ, 100 ≤ pct → filledCount 24 pct = 24)) :=
  ⟨by decide, C9_progress_bar 24 (by decide)⟩

/-! ### Worker lemmas (C1–C5) -/

/-- The worker's `finally` block (main.py lines 447–450) always marks the
job done, on every path. -/
theorem worker_done (env : Env) : (worker_job env).done = true := by
  cases h0 : env.attempts 0 with
  | ok =>
    simp only [worker_job, h0]
    split_ifs <;> rfl
  | conflictErr => simp [worker_job, h0]
  | otherMegaErr => simp [worker_job, h0]
  | otherErr => simp [worker_job, h0]

/-- Membership of a relay event in one loop-body block. -/
theorem relay_mem_relayBlock (env : Env) (p q : String) (ok : Bool) :
    (Ev.relayAttempt q ok ∈ relayBlock env p) ↔ (q = p ∧ ok = env.relayOk p) := by
  by_cases h : env.relayOk p <;> simp [relayBlock, h]

/-- No loop-body block contains a stability-check action. -/
theorem stability_not_mem_relayBlock (env : Env) (p q : String) :
    Ev.stabilityChecked q ∉ relayBlock env p := by
  by_cases h : env.relayOk p <;> simp [relayBlock, h]

/-- The loop's trace when the cancel flag is set at the current checkpoint. -/
theorem uploadLoop_cancel_now (env : Env) (i : ℕ) (p : String) (rest : List String)
    (h : env.cancelAt i = true) :
    uploadLoop env i (p :: rest) = ([Ev.editCancelledInLoop, Ev.removeDir], [], true) := by
  simp [uploadLoop, h]

/-- The loop's result when the cancel flag is clear at the current checkpoint. -/
theorem uploadLoop_go (env : Env) (i : ℕ) (p : String) (rest : List String)
    (h : env.cancelAt i = false) :
    uploadLoop env i (p :: rest) =
      (relayBlock env p ++ (uploadLoop env (i + 1) rest).1,
       if (uploadLoop env (i + 1) rest).2.2 then []
       else (if env.deleteOk p then [] else [p]) ++ (uploadLoop env (i + 1) rest).2.1,
       (uploadLoop env (i + 1) rest).2.2) := by
  simp [uploadLoop, h]

/-- The upload loop never performs a stability check. -/
theorem stability_not_mem_loop (env : Env) (q : String) :
    ∀ (fs : List String) (i : ℕ), Ev.stabilityChecked q ∉ (uploadLoop env i fs).1 := by
  intro fs
  induction fs with
  | nil => intro i; simp [uploadLoop]
  | cons p rest ih =>
    intro i hmem
    by_cases h : env.cancelAt i = true
    · rw [uploadLoop_cancel_now env i p rest h] at hmem
      simp at hmem
    · rw [uploadLoop_go env i p rest (by simpa using h)] at hmem
      rcases List.mem_append.mp hmem with h1 | h1
      · exact stability_not_mem_relayBlock env p q h1
      · exact ih (i + 1) h1

/-- A relay event occurs in the worker trace exactly when the single
retrieval attempt succeeded, no cancel was observed right after it, files
were found, the total size fits the ceiling, and the loop emits it. -/
theorem relay_mem_worker_iff (env : Env) (p : String) (ok : Bool) :
    (Ev.relayAttempt p ok ∈ (worker_job env).trace) ↔
      (env.attempts 0 = DLAttempt.ok ∧ env.cancelAt 0 = false ∧ env.files ≠ [] ∧
       (env.files.map env.size).sum ≤ TELEGRAM_MAX_BYTES ∧
       Ev.relayAttempt p ok ∈ (uploadLoop env 1 env.files).1) := by
  cases h0 : env.attempts 0 with
  | ok =>
    by_cases hc : env.cancelAt 0 = true
    · simp [worker_job, h0, hc, startActs]
    · have hcf : env.cancelAt 0 = false := by simpa using hc
      by_cases hne : env.files = []
      · simp [worker_job, h0, hcf, hne, startActs]
      · by_cases htot : TELEGRAM_MAX_BYTES < (env.files.map env.size).sum
        · simp [worker_job, h0, hcf, hne, htot, startActs, not_le]
        · simp [worker_job, h0, hcf, hne, htot, startActs, not_lt.mp htot]
  | conflictErr => simp [worker_job, h0, startActs]
  | otherMegaErr => simp [worker_job, h0, startActs]
  | otherErr => simp [worker_job, h0, startActs]

/-- One block contributes at most one relay event for a given path. -/
theorem relayBlock_count (env : Env) (p q : String) (ok : Bool) :
    (relayBlock env q).count (Ev.relayAttempt p ok) ≤ (if q = p then 1 else 0) := by
  by_cases hr : env.relayOk q <;> by_cases hq : q = p <;>
    simp [relayBlock, hr, hq, List.count_cons, List.count_append, List.count_nil,
      beq_iff_eq] <;>
    split_ifs <;> simp_all

/-- The loop relays a path at most as often as it occurs in the file list. -/
theorem loop_count_le (env : Env) (p : String) (ok : Bool) :
    ∀ (fs : List String) (i : ℕ),
      ((uploadLoop env i fs).1.count (Ev.relayAttempt p ok)) ≤ fs.count p := by
  intro fs
  induction fs with
  | nil => intro i; simp [uploadLoop]
  | cons q rest ih =>
    intro i
    by_cases h : env.cancelAt i = true
    · rw [uploadLoop_cancel_now env i q rest h]
      simp [List.count_cons]
    · rw [uploadLoop_go env i q rest (by simpa using h)]
      have h1 := relayBlock_count env p q ok
      have h2 := ih (i + 1)
      have h3 : (q :: rest).count p = rest.count p + (if q = p then 1 else 0) := by
        simp [List.count_cons, beq_iff_eq]
      rw [h3]
      have h4 : (relayBlock env q ++ (uploadLoop env (i + 1) rest).1).count
          (Ev.relayAttempt p ok) =
          (relayBlock env q).count (Ev.relayAttempt p ok) +
            ((uploadLoop env (i + 1) rest).1).count (Ev.relayAttempt p ok) :=
        List.count_append _ _ _
      rw [h4]
      by_cases hq : q = p <;> simp [hq] at h1 ⊢ <;> omega

/-- Every relay event in the loop trace is immediately followed (in the
same block) by a delete attempt, and a reported relay failure is
surfaced. -/
theorem loop_relay_delete (env : Env) (p : String) (ok : Bool) :
    ∀ (fs : List String) (i : ℕ),
      Ev.relayAttempt p ok ∈ (uploadLoop env i fs).1 →
      (∃ l r, (uploadLoop env i fs).1 = l ++ Ev.relayAttempt p ok :: r ∧
        Ev.deleteAttempt p ∈ r) ∧
      (ok = false → Ev.editUploadFailed p ∈ (uploadLoop env i fs).1) := by
  intro fs
  induction fs with
  | nil => intro i h; simp [uploadLoop] at h
  | cons q rest ih =>
    intro i h
    by_cases hc : env.cancelAt i = true
    · rw [uploadLoop_cancel_now env i q rest hc] at h
      simp at h
    · rw [uploadLoop_go env i q rest (by simpa using hc)] at h ⊢
      rcases List.mem_append.mp h with h1 | h1
      · obtain ⟨hpq, hok⟩ := (relay_mem_relayBlock env q p ok).mp h1
        subst hpq
        subst hok
        refine ⟨⟨[Ev.editUploading p],
          (if env.relayOk p then [] else [Ev.editUploadFailed p]) ++
            Ev.deleteAttempt p :: (uploadLoop env (i + 1) rest).1, ?_, ?_⟩, ?_⟩
        · simp [relayBlock]
        · simp
        · intro hf
          apply List.mem_append_left
          simp [relayBlock, hf]
      · obtain ⟨⟨l, r, heq, hdel⟩, hfail⟩ := ih (i + 1) h1
        refine ⟨⟨relayBlock env q ++ l, r, ?_, hdel⟩, ?_⟩
        · rw [heq, List.append_assoc]
        · intro hf
          exact List.mem_append_right _ (hfail hf)

/-- With no cancellation from checkpoint `i` on, the loop relays every
file in order and leaves on disk exactly those whose delete failed. -/
theorem uploadLoop_noCancel (env : Env) :
    ∀ (fs : List String) (i : ℕ), (∀ j, i ≤ j → env.cancelAt j = false) →
      uploadLoop env i fs =
        (fs.flatMap (relayBlock env) ++ [Ev.editAllDone],
         fs.filter (fun p => ! env.deleteOk p), false) := by
  intro fs
  induction fs with
  | nil => intro i _; simp [uploadLoop]
  | cons q rest ih =>
    intro i hnc
    rw [uploadLoop_go env i q rest (hnc i le_rfl),
      ih (i + 1) (fun j hj => hnc j (by omega))]
    by_cases hd : env.deleteOk q <;> simp [hd, List.flatMap_cons, List.append_assoc]

/-- If the cancel flag first turns on at loop checkpoint `k`, the loop
relays exactly the files before position `k - i`, then announces the
cancellation and removes the whole directory, leaving nothing on disk. -/
theorem uploadLoop_first_cancel (env : Env) (k : ℕ) (hk : env.cancelAt k = true) :
    ∀ (fs : List String) (i : ℕ), i ≤ k → k < i + fs.length →
      (∀ j, j < k → env.cancelAt j = false) →
      uploadLoop env i fs =
        ((fs.take (k - i)).flatMap (relayBlock env) ++
           [Ev.editCancelledInLoop, Ev.removeDir],
         [], true) := by
  intro fs
  induction fs with
  | nil =>
    intro i h1 h2 _
    simp at h2
    omega
  | cons q rest ih =>
    intro i h1 h2 hbefore
    rw [List.length_cons] at h2
    by_cases hik : i = k
    · subst hik
      rw [uploadLoop_cancel_now env i q rest hk]
      simp [Nat.sub_self]
    · have hlt : i < k := lt_of_le_of_ne h1 hik
      have hci : env.cancelAt i = false := hbefore i hlt
      rw [uploadLoop_go env i q rest hci,
        ih (i + 1) (by omega) (by omega) hbefore]
      have htake : (q :: rest).take (k - i) = q :: rest.take (k - (i + 1)) := by
        have h3 : k - i = (k - (i + 1)) + 1 := by omega
        rw [h3]
        rfl
      rw [htake]
      simp [List.flatMap_cons, List.append_assoc]

/-- A list contains the element `getD` reads at an in-range position. -/
theorem getD_mem {l : List String} {j : ℕ} (h : j < l.length) : l.getD j "" ∈ l := by
  induction l generalizing j with
  | nil => simp at h
  | cons a t ih =>
    match j with
    | 0 => simp [List.getD_cons_zero]
    | j' + 1 =>
      rw [List.getD_cons_succ]
      exact List.mem_cons_of_mem a (ih (by simpa using h))

/-- An element at a position below `n` lies in the first `n` elements. -/
theorem getD_mem_take {l : List String} {n j : ℕ} (hj : j < n) (hl : j < l.length) :
    l.getD j "" ∈ l.take n := by
  induction l generalizing j n with
  | nil => simp at hl
  | cons a t ih =>
    match n, hj with
    | n' + 1, _ =>
      rw [List.take_cons (by omega)]
      match j with
      | 0 => simp [List.getD_cons_zero]
      | j' + 1 =>
        rw [List.getD_cons_succ]
        refine List.mem_cons_of_mem a ?_
        have := ih (n := n' + 1 - 1) (j := j') (by omega) (by simpa using hl)
        simpa using this

/-- Reading past the first `n` elements is reading into the drop. -/
theorem getD_drop_shift : ∀ (l : List String) (n j : ℕ), n ≤ j →
    l.getD j "" = (l.drop n).getD (j - n) "" := by
  intro l
  induction l with
  | nil => intro n j _; simp
  | cons a t ih =>
    intro n j h
    match n with
    | 0 => simp
    | n' + 1 =>
      match j, h with
      | j' + 1, _ =>
        rw [List.getD_cons_succ, List.drop_succ_cons]
        rw [ih n' j' (by omega)]
        congr 1
        omega

/-- In a duplicate-free list, the element at position `j ≥ n` is not among
the first `n` elements. -/
theorem getD_not_mem_take {l : List String} (hnd : l.Nodup) {n j : ℕ}
    (hn : n ≤ j) (hj : j < l.length) : l.getD j "" ∉ l.take n := by
  intro hmem
  have hdisj : (l.take n).Disjoint (l.drop n) := by
    have h2 := hnd
    rw [← List.take_append_drop n l, List.nodup_append] at h2
    exact h2.2.2
  have hdropmem : l.getD j "" ∈ l.drop n := by
    rw [getD_drop_shift l n j hn]
    apply getD_mem
    rw [List.length_drop]
    omega
  exact hdisj hmem hdropmem

/-! ### C1: stability gating -/

/-- Consequence of C1 as the spec states it: every relayed file was
stability-checked at some point of the run, and no file is relayed more
than once. -/
def claimC1 (env : Env) : Prop :=
  (∀ p ok, Ev.relayAttempt p ok ∈ (worker_job env).trace →
    Ev.stabilityChecked p ∈ (worker_job env).trace) ∧
  (∀ p ok, (worker_job env).trace.count (Ev.relayAttempt p ok) ≤ 1)

/-- A one-file run that succeeds end to end. -/
def envC1 : Env :=
  { files := ["a"], size := fun _ => 5, attempts := fun _ => DLAttempt.ok,
    relayOk := fun _ => true, deleteOk := fun _ => true, cancelAt := fun _ => false }

/-- C1 counterexample: in a plain successful one-file run the file is
relayed but the trace contains no stability check at all — the worker
waits for the whole blocking download instead of checking per-file size
stability. -/
theorem C1_counterexample : ¬ claimC1 envC1 := by
  intro h
  have h1 := h.1 "a" true (by decide)
  exact absurd h1 (by decide)

/-- C1 (amended): every relayed file is relayed only after the blocking
retrieval call has returned, at most once per job (for a duplicate-free
directory scan), and the code performs no stability check whatsoever. -/
theorem C1_amended_relay_once_after_download (env : Env) (hnd : env.files.Nodup)
    (p : String) (ok : Bool)
    (h : Ev.relayAttempt p ok ∈ (worker_job env).trace) :
    (∃ l r, (worker_job env).trace = l ++ Ev.downloadReturned :: r ∧
      Ev.relayAttempt p ok ∈ r) ∧
    (worker_job env).trace.count (Ev.relayAttempt p ok) ≤ 1 ∧
    (∀ q, Ev.stabilityChecked q ∉ (worker_job env).trace) := by
  obtain ⟨h0, hc, hne, htot, hmem⟩ := (relay_mem_worker_iff env p ok).mp h
  have hlt : ¬ (TELEGRAM_MAX_BYTES < (env.files.map env.size).sum) := not_lt.mpr htot
  have htr : (worker_job env).trace =
      startActs ++ Ev.downloadReturned ::
        Ev.editHeader :: (uploadLoop env 1 env.files).1 := by
    simp [worker_job, h0, hc, hne, hlt, startActs]
  refine ⟨⟨startActs, Ev.editHeader :: (uploadLoop env 1 env.files).1, htr,
      List.mem_cons_of_mem _ hmem⟩, ?_, ?_⟩
  · rw [htr]
    have hpre : (startActs.count (Ev.relayAttempt p ok)) = 0 := by
      simp [startActs, List.count_cons, List.count_nil]
    rw [List.count_append, hpre]
    have hcons : ((Ev.downloadReturned ::
        Ev.editHeader :: (uploadLoop env 1 env.files).1).count (Ev.relayAttempt p ok)) =
        ((uploadLoop env 1 env.files).1.count (Ev.relayAttempt p ok)) := by
      simp [List.count_cons]
    rw [hcons, Nat.zero_add]
    calc ((uploadLoop env 1 env.files).1.count (Ev.relayAttempt p ok))
        ≤ env.files.count p := loop_count_le env p ok env.files 1
      _ ≤ 1 := List.nodup_iff_count_le_one.mp hnd p
  · intro q hq
    rw [htr] at hq
    rcases List.mem_append.mp hq with h1 | h1
    · simp [startActs] at h1
    · rw [List.mem_cons, List.mem_cons] at h1
      rcases h1 with h1 | h1 | h1
      · exact absurd h1 (by simp)
      · exact absurd h1 (by simp)
      · exact stability_not_mem_loop env q env.files 1 h1

/-- Witness for C1 (amended) on the one-file success run. -/
theorem C1_witness :
    envC1.files.Nodup ∧ Ev.relayAttempt "a" true ∈ (worker_job envC1).trace ∧
    ((∃ l r, (worker_job envC1).trace = l ++ Ev.downloadReturned :: r ∧
        Ev.relayAttempt "a" true ∈ r) ∧
      (worker_job envC1).trace.count (Ev.relayAttempt "a" true) ≤ 1 ∧
      (∀ q, Ev.stabilityChecked q ∉ (worker_job envC1).trace)) :=
  ⟨by decide, by decide,
    C1_amended_relay_once_after_download envC1 (by decide) "a" true (by decide)⟩

/-! ### C2: size ceiling -/

/-- C2 as the spec states it: in a cancel-free successful run, each file
whose own size exceeds the ceiling is skipped (not relayed, not deleted,
left on disk) while every file within the ceiling is still relayed, and
the job is done. -/
def claimC2 (env : Env) : Prop :=
  env.attempts 0 = DLAttempt.ok → (∀ i, env.cancelAt i = false) →
  ∀ p ∈ env.files,
    (TELEGRAM_MAX_BYTES < env.size p →
      (∀ ok, Ev.relayAttempt p ok ∉ (worker_job env).trace) ∧
      Ev.deleteAttempt p ∉ (worker_job env).trace ∧
      p ∈ (worker_job env).remaining) ∧
    (env.size p ≤ TELEGRAM_MAX_BYTES →
      Ev.relayAttempt p (env.relayOk p) ∈ (worker_job env).trace) ∧
    (worker_job env).done = true

/-- Two files of 1.5 GiB each: every single file fits the 2 GiB ceiling
but the total (3 GiB) does not. -/
def envC2 : Env :=
  { files := ["a", "b"], size := fun _ => 1610612736, attempts := fun _ => DLAttempt.ok,
    relayOk := fun _ => true, deleteOk := fun _ => true, cancelAt := fun _ => false }

/-- C2 counterexample: with two 1.5 GiB files, the claim says each file is
within the ceiling and hence relayed; the code compares the ceiling with
the *total* (main.py line 420), skips the whole upload phase and relays
nothing. -/
theorem C2_counterexample : ¬ claimC2 envC2 := by
  intro h
  have h2 := ((h rfl (fun _ => rfl) "a" (by decide)).2.1) (by decide)
  exact absurd h2 (by decide)

/-- C2 (amended): the ceiling is applied to the *total* downloaded bytes.
If the total exceeds 2 GiB, the whole upload phase is skipped: nothing is
relayed or deleted, every file stays on disk, and a "total exceeds"
message is emitted; if the total fits (and no cancel is observed) every
file is relayed, with no per-file size check.  Either way the job reaches
done. -/
theorem C2_amended_total_ceiling (env : Env)
    (h0 : env.attempts 0 = DLAttempt.ok)
    (hcan : ∀ i, env.cancelAt i = false)
    (hne : env.files ≠ []) :
    (TELEGRAM_MAX_BYTES < (env.files.map env.size).sum →
      (∀ p ok, Ev.relayAttempt p ok ∉ (worker_job env).trace) ∧
      (∀ p, Ev.deleteAttempt p ∉ (worker_job env).trace) ∧
      (worker_job env).remaining = env.files ∧
      Ev.editTotalExceeds ∈ (worker_job env).trace) ∧
    ((env.files.map env.size).sum ≤ TELEGRAM_MAX_BYTES →
      ∀ p ∈ env.files, Ev.relayAttempt p (env.relayOk p) ∈ (worker_job env).trace) ∧
    (worker_job env).done = true := by
  refine ⟨?_, ?_, worker_done env⟩
  · intro htot
    have htr : worker_job env =
        ⟨(startActs ++ [Ev.downloadReturned]) ++ [Ev.editHeader, Ev.editTotalExceeds],
         env.files, false, true⟩ := by
      simp [worker_job, h0, hcan 0, hne, htot]
    rw [htr]
    refine ⟨?_, ?_, rfl, ?_⟩
    · intro p ok
      simp [startActs]
    · intro p
      simp [startActs]
    · simp [startActs]
  · intro htot p hp
    refine (relay_mem_worker_iff env p (env.relayOk p)).mpr ⟨h0, hcan 0, hne, htot, ?_⟩
    rw [uploadLoop_noCancel env env.files 1 (fun j _ => hcan j)]
    apply List.mem_append_left
    exact List.mem_flatMap.mpr ⟨p, hp,
      by by_cases hr : env.relayOk p <;> simp [relayBlock, hr]⟩

/-- Witness for C2 (amended) on the two-1.5-GiB-file run. -/
theorem C2_witness :
    (envC2.attempts 0 = DLAttempt.ok ∧ (∀ i, envC2.cancelAt i = false) ∧
      envC2.files ≠ []) ∧
    ((TELEGRAM_MAX_BYTES < (envC2.files.map envC2.size).sum →
        (∀ p ok, Ev.relayAttempt p ok ∉ (worker_job envC2).trace) ∧
        (∀ p, Ev.deleteAttempt p ∉ (worker_job envC2).trace) ∧
        (worker_job envC2).remaining = envC2.files ∧
        Ev.editTotalExceeds ∈ (worker_job envC2).trace) ∧
      ((envC2.files.map envC2.size).sum ≤ TELEGRAM_MAX_BYTES →
        ∀ p ∈ envC2.files,
          Ev.relayAttempt p (envC2.relayOk p) ∈ (worker_job envC2).trace) ∧
      (worker_job envC2).done = true) :=
  ⟨⟨rfl, fun _ => rfl, by decide⟩,
    C2_amended_total_ceiling envC2 rfl (fun _ => rfl) (by decide)⟩

/-! ### C3: cancellation mid-pipeline -/

/-- C3 as the spec states it: if cancellation is first observed at loop
checkpoint `k` (before the `k`-th file is uploaded), that file is kept on
disk, is not relayed, and the job terminates. -/
def claimC3 (env : Env) : Prop :=
  env.attempts 0 = DLAttempt.ok → env.files.Nodup →
  (env.files.map env.size).sum ≤ TELEGRAM_MAX_BYTES →
  ∀ k, 1 ≤ k → k ≤ env.files.length →
    (∀ j, j < k → env.cancelAt j = false) → env.cancelAt k = true →
    (env.files.getD (k - 1) "" ∈ (worker_job env).remaining ∧
     (∀ ok, Ev.relayAttempt (env.files.getD (k - 1) "") ok ∉ (worker_job env).trace) ∧
     (worker_job env).done = true)

/-- Two small files; the cancel flag turns on at loop checkpoint 2, after
file "b" was uploaded and before file "a". -/
def envC3 : Env :=
  { files := ["b", "a"], size := fun _ => 5, attempts := fun _ => DLAttempt.ok,
    relayOk := fun _ => true, deleteOk := fun _ => true,
    cancelAt := fun k => decide (2 ≤ k) }

/-- C3 counterexample: when the cancel is observed before file "a", the
claim says "a" stays on disk; the code runs
`safe_remove(download_dir)` (main.py line 428) and deletes the entire
directory, so nothing remains. -/
theorem C3_counterexample : ¬ claimC3 envC3 := by
  intro h
  have h1 := (h rfl (by decide) (by decide) 2 (by decide) (by decide)
      (fun j hj => by
        show decide (2 ≤ j) = false
        rw [decide_eq_false_iff_not]
        omega)
      (by decide)).1
  exact absurd h1 (by decide)

/-- C3 (amended): when cancellation is first observed at loop checkpoint
`k`, the worker announces the cancellation and removes the *whole*
working directory — the abandoned file is deleted, not kept.  Files of
position `≥ k-1` are never relayed, files before it were relayed, already
deleted files stay deleted (nothing remains), and the job terminates. -/
theorem C3_amended_cancel_removes_dir (env : Env)
    (h0 : env.attempts 0 = DLAttempt.ok) (hnd : env.files.Nodup)
    (htot : (env.files.map env.size).sum ≤ TELEGRAM_MAX_BYTES)
    (k : ℕ) (hk1 : 1 ≤ k) (hk2 : k ≤ env.files.length)
    (hbefore : ∀ j, j < k → env.cancelAt j = false) (hck : env.cancelAt k = true) :
    (worker_job env).remaining = [] ∧
    Ev.editCancelledInLoop ∈ (worker_job env).trace ∧
    Ev.removeDir ∈ (worker_job env).trace ∧
    (∀ j, k - 1 ≤ j → j < env.files.length → ∀ ok,
      Ev.relayAttempt (env.files.getD j "") ok ∉ (worker_job env).trace) ∧
    (∀ j, j < k - 1 →
      Ev.relayAttempt (env.files.getD j "") (env.relayOk (env.files.getD j "")) ∈
        (worker_job env).trace) ∧
    (worker_job env).done = true := by
  have hne : env.files ≠ [] := by
    intro hcon
    rw [hcon] at hk2
    simp at hk2
    omega
  have hc0 : env.cancelAt 0 = false := hbefore 0 (by omega)
  have hlt : ¬ (TELEGRAM_MAX_BYTES < (env.files.map env.size).sum) := not_lt.mpr htot
  have hloop := uploadLoop_first_cancel env k hck env.files 1 hk1 (by omega) hbefore
  have htr : (worker_job env).trace = (startActs ++ [Ev.downloadReturned]) ++
      Ev.editHeader :: (uploadLoop env 1 env.files).1 := by
    simp [worker_job, h0, hc0, hne, hlt]
  have hrem : (worker_job env).remaining = (uploadLoop env 1 env.files).2.1 := by
    simp [worker_job, h0, hc0, hne, hlt]
  refine ⟨?_, ?_, ?_, ?_, ?_, worker_done env⟩
  · rw [hrem, hloop]
  · rw [htr, hloop]
    simp
  · rw [htr, hloop]
    simp
  · intro j hj1 hj2 ok hmem
    rw [htr, hloop] at hmem
    have hmem2 : Ev.relayAttempt (env.files.getD j "") ok ∈
        (env.files.take (k - 1)).flatMap (relayBlock env) := by
      simpa [startActs] using hmem
    obtain ⟨q, hq, hqmem⟩ := List.mem_flatMap.mp hmem2
    obtain ⟨hpq, _⟩ := (relay_mem_relayBlock env q (env.files.getD j "") ok).mp hqmem
    rw [← hpq] at hq
    exact getD_not_mem_take hnd hj1 hj2 hq
  · intro j hj
    refine (relay_mem_worker_iff env _ _).mpr ⟨h0, hc0, hne, htot, ?_⟩
    rw [hloop]
    apply List.mem_append_left
    refine List.mem_flatMap.mpr ⟨env.files.getD j "", ?_, ?_⟩
    · exact getD_mem_take (by omega) (by omega)
    · by_cases hr : env.relayOk (env.files.getD j "") <;> simp [relayBlock, hr]

/-- Witness for C3 (amended): cancel observed at checkpoint 2 of the
two-file run. -/
theorem C3_witness :
    (envC3.attempts 0 = DLAttempt.ok ∧ envC3.files.Nodup ∧
      (envC3.files.map envC3.size).sum ≤ TELEGRAM_MAX_BYTES ∧
      1 ≤ 2 ∧ 2 ≤ envC3.files.length ∧
      (∀ j, j < 2 → envC3.cancelAt j = false) ∧ envC3.cancelAt 2 = true) ∧
    ((worker_job envC3).remaining = [] ∧
     Ev.editCancelledInLoop ∈ (worker_job envC3).trace ∧
     Ev.removeDir ∈ (worker_job envC3).trace ∧
     (∀ j, 2 - 1 ≤ j → j < envC3.files.length → ∀ ok,
       Ev.relayAttempt (envC3.files.getD j "") ok ∉ (worker_job envC3).trace) ∧
     (∀ j, j < 2 - 1 →
       Ev.relayAttempt (envC3.files.getD j "") (envC3.relayOk (envC3.files.getD j "")) ∈
         (worker_job envC3).trace) ∧
     (worker_job envC3).done = true) := by
  have hbefore : ∀ j, j < 2 → envC3.cancelAt j = false := by
    intro j hj
    show decide (2 ≤ j) = false
    rw [decide_eq_false_iff_not]
    omega
  exact ⟨⟨rfl, by decide, by decide, by decide, by decide, hbefore, by decide⟩,
    C3_amended_cancel_removes_dir envC3 rfl (by decide) (by decide) 2 (by decide)
      (by decide) hbefore (by decide)⟩

/-! ### C4: retrieval retry -/

/-- C4 as the spec states it: a retrieval that reports a conflict once and
would succeed on the second attempt still gets its files relayed. -/
def claimC4 (env : Env) : Prop :=
  env.attempts 0 = DLAttempt.conflictErr → env.attempts 1 = DLAttempt.ok →
  ∀ p ∈ env.files, Ev.relayAttempt p (env.relayOk p) ∈ (worker_job env).trace

/-- One file; the first retrieval attempt reports a conflict, any retry
would succeed. -/
def envC4 : Env :=
  { files := ["x"], size := fun _ => 5,
    attempts := fun k => if k = 0 then DLAttempt.conflictErr else DLAttempt.ok,
    relayOk := fun _ => true, deleteOk := fun _ => true, cancelAt := fun _ => false }

/-- C4 counterexample: the worker performs no retry at all — after the
conflict error it emits the Mega-error message and relays nothing, even
though a second attempt would succeed. -/
theorem C4_counterexample : ¬ claimC4 envC4 := by
  intro h
  have h1 := h rfl rfl "x" (by decide)
  exact absurd h1 (by decide)

/-- C4 (amended): the worker makes exactly one retrieval call (its result
depends only on attempt 0; a pre-emptive directory removal, not a retry,
handles existing paths), and every retrieval error — the
"already exists" conflict included — is terminal: an error message is
emitted, nothing is relayed or deleted, and the job ends. -/
theorem C4_amended_no_retry (env : Env) (g : ℕ → DLAttempt)
    (hg : g 0 = env.attempts 0) :
    worker_job { env with attempts := g } = worker_job env ∧
    (env.attempts 0 ≠ DLAttempt.ok →
      (∀ p ok, Ev.relayAttempt p ok ∉ (worker_job env).trace) ∧
      (∀ p, Ev.deleteAttempt p ∉ (worker_job env).trace) ∧
      (Ev.editMegaError ∈ (worker_job env).trace ∨
        Ev.editUnexpectedError ∈ (worker_job env).trace) ∧
      (worker_job env).remaining = env.files ∧
      (worker_job env).done = true) := by
  have hloop : ∀ (fs : List String) (i : ℕ),
      uploadLoop { env with attempts := g } i fs = uploadLoop env i fs := by
    intro fs
    induction fs with
    | nil => intro i; rfl
    | cons p rest ih => intro i; simp [uploadLoop, relayBlock, ih (i + 1)]
  constructor
  · cases h0 : env.attempts 0 <;> simp [worker_job, h0, hg, hloop]
  · intro hne
    cases h0 : env.attempts 0 with
    | ok => exact absurd h0 hne
    | conflictErr =>
      refine ⟨?_, ?_, Or.inl ?_, ?_, worker_done env⟩ <;>
        simp [worker_job, h0, startActs]
    | otherMegaErr =>
      refine ⟨?_, ?_, Or.inl ?_, ?_, worker_done env⟩ <;>
        simp [worker_job, h0, startActs]
    | otherErr =>
      refine ⟨?_, ?_, Or.inr ?_, ?_, worker_done env⟩ <;>
        simp [worker_job, h0, startActs]

/-- Witness for C4 (amended) on the conflicting one-file run. -/
theorem C4_witness :
    ((fun _ => DLAttempt.conflictErr) 0 = envC4.attempts 0 ∧
      envC4.attempts 0 ≠ DLAttempt.ok) ∧
    (worker_job { envC4 with attempts := fun _ => DLAttempt.conflictErr } =
      worker_job envC4 ∧
     ((∀ p ok, Ev.relayAttempt p ok ∉ (worker_job envC4).trace) ∧
      (∀ p, Ev.deleteAttempt p ∉ (worker_job envC4).trace) ∧
      (Ev.editMegaError ∈ (worker_job envC4).trace ∨
        Ev.editUnexpectedError ∈ (worker_job envC4).trace) ∧
      (worker_job envC4).remaining = envC4.files ∧
      (worker_job envC4).done = true)) :=
  ⟨⟨rfl, by decide⟩,
    ⟨(C4_amended_no_retry envC4 (fun _ => DLAttempt.conflictErr) rfl).1,
      (C4_amended_no_retry envC4 (fun _ => DLAttempt.conflictErr) rfl).2 (by decide)⟩⟩

/-! ### C5: delete after relay regardless of outcome -/

/-- C5: every relayed file has a delete attempt after the relay attempt in
the trace — whether or not the relay reported success — and a reported
relay failure is surfaced via a status edit. -/
theorem C5_delete_after_relay (env : Env) (p : String) (ok : Bool)
    (h : Ev.relayAttempt p ok ∈ (worker_job env).trace) :
    (∃ l r, (worker_job env).trace = l ++ Ev.relayAttempt p ok :: r ∧
      Ev.deleteAttempt p ∈ r) ∧
    (ok = false → Ev.editUploadFailed p ∈ (worker_job env).trace) := by
  obtain ⟨h0, hc, hne, htot, hmem⟩ := (relay_mem_worker_iff env p ok).mp h
  have hlt : ¬ (TELEGRAM_MAX_BYTES < (env.files.map env.size).sum) := not_lt.mpr htot
  have htr : (worker_job env).trace = (startActs ++ [Ev.downloadReturned]) ++
      Ev.editHeader :: (uploadLoop env 1 env.files).1 := by
    simp [worker_job, h0, hc, hne, hlt]
  obtain ⟨⟨l, r, heq, hdel⟩, hfail⟩ := loop_relay_delete env p ok env.files 1 hmem
  refine ⟨⟨(startActs ++ [Ev.downloadReturned]) ++ Ev.editHeader :: l, r, ?_, hdel⟩, ?_⟩
  · rw [htr, heq]
    simp [List.append_assoc]
  · intro hf
    rw [htr]
    exact List.mem_append_right _ (List.mem_cons_of_mem _ (hfail hf))

/-- One file whose relay reports failure; the delete is attempted anyway. -/
def envC5 : Env :=
  { files := ["a"], size := fun _ => 5, attempts := fun _ => DLAttempt.ok,
    relayOk := fun _ => false, deleteOk := fun _ => true, cancelAt := fun _ => false }

/-- Witness for C5 on the failed-relay run. -/
theorem C5_witness :
    Ev.relayAttempt "a" false ∈ (worker_job envC5).trace ∧
    ((∃ l r, (worker_job envC5).trace = l ++ Ev.relayAttempt "a" false :: r ∧
        Ev.deleteAttempt "a" ∈ r) ∧
      (false = false → Ev.editUploadFailed "a" ∈ (worker_job envC5).trace)) :=
  ⟨by decide, C5_delete_after_relay envC5 "a" false (by decide)⟩

end Mega
